import Mathlib

/-!
# Verification of the 3D bin-packing engine

Shallow embedding of the packing engine (`packBoxes` and its helpers) of the
shipping-container repository.  JavaScript numbers are modelled as rationals
(`ℚ`); the JS `Map` used for unpacked counts is modelled as an insertion-order
association list; the two in-place `Array.prototype.sort` calls (stable in
modern JS engines) are modelled by a stable insertion sort with a total
boolean "may come before" relation derived from the source's comparators.
The rotation record stores the source's `Math.PI / 2` radians as the rational
`1 / 2` ("y quarter turns are stored in units of pi"), keeping the record
decidable while preserving which of the two distinct values the source emits.
-/

/-- Container dimensions (the shipping container). -/
structure Container where
  length : ℚ
  width : ℚ
  height : ℚ
  deriving DecidableEq, Repr

/-- Box type definition: a category of boxes, with a requested quantity. -/
structure BoxType where
  id : String
  name : String
  length : ℚ
  width : ℚ
  height : ℚ
  weight : ℚ
  isFragile : Bool
  color : String
  quantity : Nat
  deriving DecidableEq, Repr

/-- 3D position coordinates. -/
structure Position where
  x : ℚ
  y : ℚ
  z : ℚ
  deriving DecidableEq, Repr

/-- 3D rotation; the source stores radians, we store the y component in units
of pi so that the two values the source can produce (identity and a quarter
turn about the vertical axis) stay in `ℚ`. -/
structure Rotation where
  x : ℚ
  y : ℚ
  z : ℚ
  deriving DecidableEq, Repr

/-- Effective dimensions of a placed box after rotation. -/
structure Dimensions where
  length : ℚ
  width : ℚ
  height : ℚ
  deriving DecidableEq, Repr

/-- A box positioned by the packing algorithm. -/
structure PackedBox where
  id : String
  boxType : BoxType
  position : Position
  rotation : Rotation
  dimensions : Dimensions
  deriving DecidableEq, Repr

/-- Statistics about the packing result.  The three unit counts are integers
(JS numbers closed under the subtraction the source performs). -/
structure PackingStats where
  totalBoxes : ℤ
  packedBoxes : ℤ
  unpackedBoxes : ℤ
  containerVolume : ℚ
  usedVolume : ℚ
  utilizationPercent : ℚ
  totalWeight : ℚ
  deriving DecidableEq, Repr

/-- Complete result from the packing algorithm. -/
structure PackingResult where
  success : Bool
  boxes : List PackedBox
  unpacked : List BoxType
  stats : PackingStats
  deriving DecidableEq, Repr

/-- Internal representation of a box during packing. -/
structure BoxToPlace where
  boxType : BoxType
  index : Nat
  deriving DecidableEq, Repr

/-- An available space in the container. -/
structure Space where
  x : ℚ
  y : ℚ
  z : ℚ
  length : ℚ
  width : ℚ
  height : ℚ
  deriving DecidableEq, Repr

/-- `boxFitsInSpace` from the source: a box fits if each extent is at most
the corresponding extent of the space. -/
def boxFitsInSpace (boxL boxW boxH : ℚ) (space : Space) : Bool :=
  decide (boxL ≤ space.length) && decide (boxW ≤ space.width) &&
    decide (boxH ≤ space.height)

/-- `getRotations` from the source: all rotation permutations of a box as
`(length, width, height)` triples; fragile boxes keep their height. -/
def getRotations (box : BoxType) : List (ℚ × ℚ × ℚ) :=
  if box.isFragile then
    [(box.length, box.width, box.height),
     (box.width, box.length, box.height)]
  else
    [(box.length, box.width, box.height),
     (box.length, box.height, box.width),
     (box.width, box.length, box.height),
     (box.width, box.height, box.length),
     (box.height, box.length, box.width),
     (box.height, box.width, box.length)]

/-- `getRotationFromDimensions` from the source: identity when the rotated
triple matches the original dimensions, a quarter turn about the vertical
axis when length and width are swapped, identity otherwise.  (`1/2` stands
for the source's `Math.PI / 2`, see the module comment.) -/
def getRotationFromDimensions (original : BoxType) (rotated : ℚ × ℚ × ℚ) :
    Rotation :=
  if rotated.1 = original.length ∧ rotated.2.1 = original.width ∧
      rotated.2.2 = original.height then
    ⟨0, 0, 0⟩
  else if rotated.1 = original.width ∧ rotated.2.1 = original.length ∧
      rotated.2.2 = original.height then
    ⟨0, 1/2, 0⟩
  else
    ⟨0, 0, 0⟩

/-- The condition the source's fragility check uses twice: the candidate at
position `p` with dimensions `d` starts within `0.1` of the top of the
(fragile) box `packed`, and the x/z footprints strictly overlap.  In the
source this appears once as the guard (`Math.abs(position.y - fragileTop) <
0.1` together with `overlapX && overlapZ`) and once inside the `stackCount`
filter with the candidate replaced by an already packed box. -/
def condTop (packed : PackedBox) (p : Position) (d : Dimensions) : Bool :=
  decide (|p.y - (packed.position.y + packed.dimensions.height)| < 1/10) &&
  (decide (p.x < packed.position.x + packed.dimensions.length) &&
   decide (p.x + d.length > packed.position.x)) &&
  (decide (p.z < packed.position.z + packed.dimensions.width) &&
   decide (p.z + d.width > packed.position.z))

/-- `checkFragilityConstraint` from the source.  The source's `for` loop with
an early `return false` is equivalently a conjunction over `packedBoxes`:
for every already packed fragile box whose top the candidate would rest on
(within the 0.1 tolerance) with overlapping footprint, the number of already
packed boxes with the same property must be below 2. -/
def checkFragilityConstraint (packedBoxes : List PackedBox)
    (_newBox : BoxType) (position : Position) (dimensions : Dimensions) :
    Bool :=
  packedBoxes.all fun packed =>
    if packed.boxType.isFragile then
      if condTop packed position dimensions then
        decide ((packedBoxes.filter fun b =>
          condTop packed b.position b.dimensions).length < 2)
      else true
    else true

/-- The residual space to the right of the box (along the x axis). -/
def rightSpace (space : Space) (boxL : ℚ) : Space :=
  ⟨space.x + boxL, space.y, space.z,
   space.length - boxL, space.width, space.height⟩

/-- The residual space in front of the box (along the z axis). -/
def frontSpace (space : Space) (boxL boxW : ℚ) : Space :=
  ⟨space.x, space.y, space.z + boxW,
   boxL, space.width - boxW, space.height⟩

/-- The residual space above the box (along the y axis). -/
def aboveSpace (space : Space) (boxL boxW boxH : ℚ) : Space :=
  ⟨space.x, space.y + boxH, space.z,
   boxL, boxW, space.height - boxH⟩

/-- `splitSpace` from the source: guillotine split of a space after placing a
box of extents `(boxL, boxW, boxH)` at its origin; each residual is pushed
only when its remaining extent is strictly positive. -/
def splitSpace (space : Space) (boxL boxW boxH : ℚ) : List Space :=
  (if 0 < space.length - boxL then [rightSpace space boxL] else []) ++
  (if 0 < space.width - boxW then [frontSpace space boxL boxW] else []) ++
  (if 0 < space.height - boxH then [aboveSpace space boxL boxW boxH] else [])

/-- Unrotated volume of a box type (the sort key of the source's first-fit
decreasing order). -/
def boxVolume (bt : BoxType) : ℚ := bt.length * bt.width * bt.height

/-- Stable insertion of `x` into `l`: `x` goes in front of the first element
it may precede. -/
def insertS (le : α → α → Bool) (x : α) : List α → List α
  | [] => [x]
  | y :: ys => if le x y then x :: y :: ys else y :: insertS le x ys

/-- Stable insertion sort; models JS `Array.prototype.sort` (stable since
ES2019) for a total comparator. -/
def stableSort (le : α → α → Bool) : List α → List α
  | [] => []
  | x :: xs => insertS le x (stableSort le xs)

/-- "May come before" for units under the source's comparator
`volB - volA` (descending unrotated volume, ties stable). -/
def unitLE (a b : BoxToPlace) : Bool :=
  decide (boxVolume b.boxType ≤ boxVolume a.boxType)

/-- "May come before" for spaces under the source's comparator
(ascending y, then x, then z; ties stable). -/
def spaceLE (a b : Space) : Bool :=
  decide (a.y < b.y ∨ (a.y = b.y ∧ (a.x < b.x ∨ (a.x = b.x ∧ a.z ≤ b.z))))

/-- Demand expansion from the source: each box type of quantity `n` becomes
`n` units, indices `0, …, n-1`, in input order. -/
def expandUnits : List BoxType → List BoxToPlace
  | [] => []
  | bt :: rest =>
    ((List.range bt.quantity).map fun i => ⟨bt, i⟩) ++ expandUnits rest

/-- Lookup in the insertion-order association list modelling the JS `Map`
`unpackedCounts`. -/
def mapGet : List (String × Nat) → String → Option Nat
  | [], _ => none
  | (k, v) :: rest, key => if k = key then some v else mapGet rest key

/-- Update in the insertion-order association list modelling the JS `Map`:
an existing key keeps its position, a new key is appended. -/
def mapSet : List (String × Nat) → String → Nat → List (String × Nat)
  | [], key, val => [(key, val)]
  | (k, v) :: rest, key, val =>
    if k = key then (key, val) :: rest else (k, v) :: mapSet rest key val

/-- Working state of the placement loop. -/
structure PackState where
  spaces : List Space
  packedBoxes : List PackedBox
  unpackedCounts : List (String × Nat)
  deriving DecidableEq, Repr

/-- The inner rotation loop of the source: the first rotation of the box that
fits the space and passes the fragility check. -/
def firstFit (packed : List PackedBox) (bt : BoxType) (space : Space) :
    Option (ℚ × ℚ × ℚ) :=
  (getRotations bt).find? fun r =>
    boxFitsInSpace r.1 r.2.1 r.2.2 space &&
    checkFragilityConstraint packed bt ⟨space.x, space.y, space.z⟩
      ⟨r.1, r.2.1, r.2.2⟩

/-- The space scan of the source: the first space (in list order) admitting a
rotation; returns the space list with the consumed space spliced out and the
residual spaces spliced in (the source's `spaces.splice(spaceIdx, 1,
...newSpaces)`), together with the consumed space and the chosen rotation. -/
def scanSpaces (packed : List PackedBox) (bt : BoxType) :
    List Space → Option (List Space × Space × (ℚ × ℚ × ℚ))
  | [] => none
  | s :: rest =>
    match firstFit packed bt s with
    | some r => some (splitSpace s r.1 r.2.1 r.2.2 ++ rest, s, r)
    | none =>
      match scanSpaces packed bt rest with
      | some (ns, sp, r) => some (s :: ns, sp, r)
      | none => none

/-- One iteration of the source's `for (const boxToPlace of boxesToPlace)`
loop: try to place the unit; on success append the placed box, splice the
spaces, re-sort them (ascending y, x, z) and drop spaces with any extent not
exceeding 1; on failure increment the unit's unpacked counter. -/
def placeUnit (st : PackState) (u : BoxToPlace) : PackState :=
  match scanSpaces st.packedBoxes u.boxType st.spaces with
  | some (ns, sp, r) =>
    { spaces := (stableSort spaceLE ns).filter fun s =>
        decide (1 < s.length) && decide (1 < s.width) &&
          decide (1 < s.height),
      packedBoxes := st.packedBoxes ++
        [⟨u.boxType.id ++ "_" ++ toString u.index, u.boxType,
          ⟨sp.x, sp.y, sp.z⟩,
          getRotationFromDimensions u.boxType r,
          ⟨r.1, r.2.1, r.2.2⟩⟩],
      unpackedCounts := st.unpackedCounts }
  | none =>
    { st with unpackedCounts := (mapSet st.unpackedCounts u.boxType.id
        ((mapGet st.unpackedCounts u.boxType.id).getD 0 + 1)) }

/-- The initial space: the entire container at origin. -/
def initialSpace (c : Container) : Space :=
  ⟨0, 0, 0, c.length, c.width, c.height⟩

/-- The sorted unit list the source's main loop iterates over. -/
def sortedUnits (boxTypes : List BoxType) : List BoxToPlace :=
  stableSort unitLE (expandUnits boxTypes)

/-- State after processing the first `n` units (used to speak about the loop
"throughout one invocation"). -/
def partialState (c : Container) (boxTypes : List BoxType) (n : Nat) :
    PackState :=
  ((sortedUnits boxTypes).take n).foldl placeUnit
    ⟨[initialSpace c], [], []⟩

/-- Final state of the placement loop. -/
def packedState (c : Container) (boxTypes : List BoxType) : PackState :=
  (sortedUnits boxTypes).foldl placeUnit ⟨[initialSpace c], [], []⟩

/-- JS `Math.round` on the rationals the engine feeds it: round half towards
positive infinity. -/
def jsRound (q : ℚ) : ℤ := ⌊q + 1/2⌋

/-- `packBoxes` from the source: expansion, decreasing-volume sort, first-fit
placement with guillotine splitting, unpacked-list construction and
statistics aggregation. -/
def packBoxes (container : Container) (boxTypes : List BoxType) :
    PackingResult :=
  let final := packedState container boxTypes
  let unpacked : List BoxType := final.unpackedCounts.filterMap fun kv =>
    (boxTypes.find? fun b => b.id == kv.1).map fun bt =>
      { bt with quantity := kv.2 }
  let containerVolume := container.length * container.width * container.height
  let usedVolume := final.packedBoxes.foldl
    (fun sum b =>
      sum + b.dimensions.length * b.dimensions.width * b.dimensions.height) 0
  let totalWeight := final.packedBoxes.foldl
    (fun sum b => sum + b.boxType.weight) 0
  let totalBoxes : ℤ := (sortedUnits boxTypes).length
  { success := decide (0 < final.packedBoxes.length),
    boxes := final.packedBoxes,
    unpacked := unpacked,
    stats :=
      ⟨totalBoxes, final.packedBoxes.length,
       totalBoxes - final.packedBoxes.length,
       containerVolume, usedVolume,
       (jsRound (usedVolume / containerVolume * 100 * 10) : ℚ) / 10,
       totalWeight⟩ }

/-- The half-open occupied region of a cuboid with minimum corner
`(x, y, z)`, x extent `l`, vertical extent `h` and z extent `w`. -/
def inRegion (x y z l w h : ℚ) (p : ℚ × ℚ × ℚ) : Prop :=
  (x ≤ p.1 ∧ p.1 < x + l) ∧ (y ≤ p.2.1 ∧ p.2.1 < y + h) ∧
    (z ≤ p.2.2 ∧ p.2.2 < z + w)

/-- Occupied region of a placed box. -/
def PackedBox.region (b : PackedBox) : ℚ × ℚ × ℚ → Prop :=
  inRegion b.position.x b.position.y b.position.z
    b.dimensions.length b.dimensions.width b.dimensions.height

/-- Region covered by a free space. -/
def Space.region (s : Space) : ℚ × ℚ × ℚ → Prop :=
  inRegion s.x s.y s.z s.length s.width s.height

/-- Two regions sharing no point. -/
def regionDisjoint (A B : ℚ × ℚ × ℚ → Prop) : Prop :=
  ∀ p, A p → B p → False

/-- A cuboid lies inside the container: nonnegative minimum corner and
maximum corner within the container's extents. -/
def withinContainer (c : Container) (x y z l w h : ℚ) : Prop :=
  0 ≤ x ∧ 0 ≤ y ∧ 0 ≤ z ∧ x + l ≤ c.length ∧ y + h ≤ c.height ∧
    z + w ≤ c.width

/-- Valid input in the sense of the spec: positive container dimensions and
positive box dimensions (quantities are nonnegative integers by type). -/
def validInput (c : Container) (boxTypes : List BoxType) : Prop :=
  (0 < c.length ∧ 0 < c.width ∧ 0 < c.height) ∧
    ∀ bt ∈ boxTypes, 0 < bt.length ∧ 0 < bt.width ∧ 0 < bt.height

/-- The per-fragile-box bound the fragility check maintains over the part of
the packed list that comes after the fragile box. -/
def FragOK : List PackedBox → Prop
  | [] => True
  | F :: rest =>
    (F.boxType.isFragile = true →
      (rest.filter fun b => condTop F b.position b.dimensions).length ≤ 2) ∧
    FragOK rest

/-- Sum of the values of the unpacked-counts association list. -/
def sumVals (m : List (String × Nat)) : Nat := (m.map fun kv => kv.2).sum

/-- Concrete container of the spec's Scenario A. -/
def containerA : Container := ⟨100, 100, 100⟩

/-- Concrete box spec of the spec's Scenario A (quantity 1). -/
def boxSpecA : BoxType := ⟨"box", "Box", 50, 50, 50, 2, false, "#abc", 1⟩

/-- Scenario A box spec with quantity 2 (two placed boxes). -/
def boxSpecA2 : BoxType := ⟨"box", "Box", 50, 50, 50, 2, false, "#abc", 2⟩

/-- The single placed box Scenario A produces. -/
def placedA : PackedBox :=
  ⟨"box_0", boxSpecA, ⟨0, 0, 0⟩, ⟨0, 0, 0⟩, ⟨50, 50, 50⟩⟩

/-- Container of the fragility counterexample: a narrow 5 x 5 x 10 tower. -/
def fragCexC : Container := ⟨5, 5, 10⟩

/-- Box specs of the fragility counterexample: three thin 5 x 5 x 0.02 tiles
and one fragile 4 x 4 x 0.02 box; the tiles have the larger volume, so the
fragile box is placed last, directly on the pile of tiles, and all three tile
bottoms lie within 0.1 of the fragile box's top face. -/
def fragCexB : List BoxType :=
  [⟨"tile", "Tile", 5, 5, 1/50, 1, false, "#0f0", 3⟩,
   ⟨"frg", "Fragile", 4, 4, 1/50, 1, true, "#f00", 1⟩]

/-- The fragile placed box of the fragility counterexample (fourth in the
output). -/
def fragCexF : PackedBox :=
  ⟨"frg_0", ⟨"frg", "Fragile", 4, 4, 1/50, 1, true, "#f00", 1⟩,
   ⟨0, 3/50, 0⟩, ⟨0, 0, 0⟩, ⟨4, 4, 1/50⟩⟩

/-- Concrete input of the C10 witness: one fragile box. -/
def containerW10 : Container := ⟨10, 10, 10⟩

/-- Fragile box spec of the C10 witness. -/
def boxSpecW10 : BoxType := ⟨"f", "F", 3, 4, 5, 1, true, "#f00", 1⟩

/-- The placed box of the C10 witness. -/
def placedW10 : PackedBox :=
  ⟨"f_0", boxSpecW10, ⟨0, 0, 0⟩, ⟨0, 0, 0⟩, ⟨3, 4, 5⟩⟩

/-- Geometric invariant of the placement loop: all spaces and boxes lie in
the container, spaces are pairwise disjoint, boxes are pairwise disjoint,
and every space is disjoint from every box. -/
structure SpacesOK (c : Container) (st : PackState) : Prop where
  sBounds : ∀ s ∈ st.spaces,
    withinContainer c s.x s.y s.z s.length s.width s.height
  bBounds : ∀ b ∈ st.packedBoxes,
    withinContainer c b.position.x b.position.y b.position.z
      b.dimensions.length b.dimensions.width b.dimensions.height
  sDisj : st.spaces.Pairwise fun a b => regionDisjoint a.region b.region
  bDisj : st.packedBoxes.Pairwise fun a b => regionDisjoint a.region b.region
  sbDisj : ∀ s ∈ st.spaces, ∀ b ∈ st.packedBoxes,
    regionDisjoint s.region b.region

/-! ## List and sorting infrastructure -/

lemma insertS_perm (le : α → α → Bool) (x : α) (l : List α) :
    List.Perm (insertS le x l) (x :: l) := by
  induction l with
  | nil => exact List.Perm.refl _
  | cons y ys ih =>
    unfold insertS
    by_cases h : le x y = true
    · rw [if_pos h]
    · rw [if_neg h]
      exact (List.Perm.cons y ih).trans (List.Perm.swap x y ys)

lemma stableSort_perm (le : α → α → Bool) (l : List α) :
    List.Perm (stableSort le l) l := by
  induction l with
  | nil => exact List.Perm.refl _
  | cons x xs ih =>
    exact (insertS_perm le x (stableSort le xs)).trans (List.Perm.cons x ih)

lemma mem_stableSort {le : α → α → Bool} {l : List α} {a : α} :
    a ∈ stableSort le l ↔ a ∈ l :=
  (stableSort_perm le l).mem_iff

lemma stableSort_length (le : α → α → Bool) (l : List α) :
    (stableSort le l).length = l.length :=
  (stableSort_perm le l).length_eq

lemma expandUnits_boxType {bts : List BoxType} {u : BoxToPlace}
    (h : u ∈ expandUnits bts) : u.boxType ∈ bts := by
  induction bts with
  | nil => simp [expandUnits] at h
  | cons bt rest ih =>
    unfold expandUnits at h
    rcases List.mem_append.1 h with h1 | h2
    · obtain ⟨i, _, hi⟩ := List.mem_map.1 h1
      rw [← hi]
      exact List.mem_cons_self _ _
    · exact List.mem_cons_of_mem _ (ih h2)

lemma expandUnits_length (bts : List BoxType) :
    (expandUnits bts).length = (bts.map fun bt => bt.quantity).sum := by
  induction bts with
  | nil => rfl
  | cons bt rest ih => simp [expandUnits, ih]

lemma sortedUnits_boxType {bts : List BoxType} {u : BoxToPlace}
    (h : u ∈ sortedUnits bts) : u.boxType ∈ bts :=
  expandUnits_boxType (mem_stableSort.1 h)

lemma sortedUnits_length (bts : List BoxType) :
    (sortedUnits bts).length = (bts.map fun bt => bt.quantity).sum := by
  rw [sortedUnits, stableSort_length, expandUnits_length]

/-! ## Unpacked-counts map lemmas -/

lemma sumVals_mapSet (m : List (String × Nat)) (k : String) :
    sumVals (mapSet m k ((mapGet m k).getD 0 + 1)) = sumVals m + 1 := by
  induction m with
  | nil => simp [mapGet, mapSet, sumVals]
  | cons kv rest ih =>
    obtain ⟨k1, v1⟩ := kv
    by_cases h : k1 = k
    · subst h
      simp [mapGet, mapSet, sumVals]
      omega
    · simp only [mapGet, mapSet, if_neg h]
      simp only [sumVals, List.map_cons, List.sum_cons] at ih ⊢
      omega

lemma mapSet_keys {m : List (String × Nat)} {k : String} {v : Nat}
    {kv : String × Nat} (h : kv ∈ mapSet m k v) : kv.1 = k ∨ kv ∈ m := by
  induction m with
  | nil => simp [mapSet] at h; simp [h]
  | cons kv0 rest ih =>
    obtain ⟨k1, v1⟩ := kv0
    unfold mapSet at h
    by_cases hk : k1 = k
    · rw [if_pos hk] at h
      rcases List.mem_cons.1 h with h1 | h2
      · left; rw [h1]
      · right; exact List.mem_cons_of_mem _ h2
    · rw [if_neg hk] at h
      rcases List.mem_cons.1 h with h1 | h2
      · right; rw [h1]; exact List.mem_cons_self _ _
      · rcases ih h2 with h3 | h3
        · left; exact h3
        · right; exact List.mem_cons_of_mem _ h3

/-! ## Rotation and fit lemmas -/

lemma boxFits_iff {bl bw bh : ℚ} {s : Space} :
    boxFitsInSpace bl bw bh s = true ↔
      bl ≤ s.length ∧ bw ≤ s.width ∧ bh ≤ s.height := by
  simp [boxFitsInSpace, and_assoc]

lemma getRotations_cases {bt : BoxType} {r : ℚ × ℚ × ℚ}
    (h : r ∈ getRotations bt) :
    r = (bt.length, bt.width, bt.height) ∨
    r = (bt.length, bt.height, bt.width) ∨
    r = (bt.width, bt.length, bt.height) ∨
    r = (bt.width, bt.height, bt.length) ∨
    r = (bt.height, bt.length, bt.width) ∨
    r = (bt.height, bt.width, bt.length) := by
  unfold getRotations at h
  by_cases hf : bt.isFragile = true
  · rw [if_pos hf] at h
    rcases List.mem_cons.1 h with h1 | h1
    · exact Or.inl h1
    · simp only [List.mem_singleton] at h1
      exact Or.inr (Or.inr (Or.inl h1))
  · rw [if_neg hf] at h
    simp only [List.mem_cons, List.mem_singleton, List.not_mem_nil,
      or_false] at h
    tauto

lemma getRotations_fragile {bt : BoxType} {r : ℚ × ℚ × ℚ}
    (hf : bt.isFragile = true) (h : r ∈ getRotations bt) :
    r = (bt.length, bt.width, bt.height) ∨
    r = (bt.width, bt.length, bt.height) := by
  unfold getRotations at h
  rw [if_pos hf] at h
  simp only [List.mem_cons, List.mem_singleton, List.not_mem_nil,
    or_false] at h
  exact h

lemma rot_nonneg {bt : BoxType} {r : ℚ × ℚ × ℚ} (h : r ∈ getRotations bt)
    (h1 : 0 ≤ bt.length) (h2 : 0 ≤ bt.width) (h3 : 0 ≤ bt.height) :
    0 ≤ r.1 ∧ 0 ≤ r.2.1 ∧ 0 ≤ r.2.2 := by
  rcases getRotations_cases h with h0 | h0 | h0 | h0 | h0 | h0 <;>
    subst h0 <;> exact ⟨by assumption, by assumption, by assumption⟩

/-! ## Space-scan lemmas -/

lemma scanSpaces_spec {packed : List PackedBox} {bt : BoxType}
    {ss ns : List Space} {sp : Space} {r : ℚ × ℚ × ℚ}
    (h : scanSpaces packed bt ss = some (ns, sp, r)) :
    ∃ pre suf, ss = pre ++ sp :: suf ∧
      ns = pre ++ (splitSpace sp r.1 r.2.1 r.2.2 ++ suf) ∧
      r ∈ getRotations bt ∧
      boxFitsInSpace r.1 r.2.1 r.2.2 sp = true ∧
      checkFragilityConstraint packed bt ⟨sp.x, sp.y, sp.z⟩
        ⟨r.1, r.2.1, r.2.2⟩ = true := by
  induction ss generalizing ns with
  | nil => simp [scanSpaces] at h
  | cons s rest ih =>
    rw [scanSpaces] at h
    cases hff : firstFit packed bt s with
    | some r0 =>
      rw [hff] at h
      simp only [Option.some.injEq, Prod.mk.injEq] at h
      obtain ⟨hns, hsp, hr⟩ := h
      subst hsp; subst hr
      have hmem := List.mem_of_find?_eq_some hff
      have hpred := List.find?_some hff
      rw [Bool.and_eq_true] at hpred
      exact ⟨[], rest, rfl, by rw [← hns]; rfl, hmem, hpred.1, hpred.2⟩
    | none =>
      rw [hff] at h
      cases hsc : scanSpaces packed bt rest with
      | some val =>
        obtain ⟨ns1, sp1, r1⟩ := val
        rw [hsc] at h
        simp only [Option.some.injEq, Prod.mk.injEq] at h
        obtain ⟨hns, hsp, hr⟩ := h
        subst hsp; subst hr
        obtain ⟨pre, suf, h1, h2, h3, h4, h5⟩ := ih hsc
        exact ⟨s :: pre, suf, by rw [h1]; rfl,
          by rw [← hns, h2]; rfl, h3, h4, h5⟩
      | none => rw [hsc] at h; exact absurd h (by simp)

/-! ## Fragility-check lemmas -/

lemma checkFrag_bound {packed : List PackedBox} {bt : BoxType}
    {pos : Position} {dims : Dimensions}
    (h : checkFragilityConstraint packed bt pos dims = true)
    {F : PackedBox} (hF : F ∈ packed) (hfr : F.boxType.isFragile = true)
    (hc : condTop F pos dims = true) :
    (packed.filter fun b => condTop F b.position b.dimensions).length ≤ 1 := by
  unfold checkFragilityConstraint at h
  rw [List.all_eq_true] at h
  have h2 := h F hF
  rw [hfr] at h2
  rw [if_pos rfl, if_pos hc] at h2
  rw [decide_eq_true_eq] at h2
  omega

lemma filter_cons_length_le {p : PackedBox → Bool} {F : PackedBox}
    {rest : List PackedBox} :
    (rest.filter p).length ≤ ((F :: rest).filter p).length :=
  ((List.sublist_cons_self F rest).filter p).length_le

lemma fragOK_append {L : List PackedBox} {pb : PackedBox} (hL : FragOK L)
    (hbound : ∀ F ∈ L, F.boxType.isFragile = true →
      condTop F pb.position pb.dimensions = true →
      (L.filter fun b => condTop F b.position b.dimensions).length ≤ 1) :
    FragOK (L ++ [pb]) := by
  induction L with
  | nil => exact ⟨fun _ => by simp, trivial⟩
  | cons F rest ih =>
    obtain ⟨h1, h2⟩ := hL
    refine ⟨?_, ih h2 ?_⟩
    · intro hfr
      rw [show rest.append [pb] = rest ++ [pb] from rfl,
        List.filter_append, List.length_append]
      by_cases hc : condTop F pb.position pb.dimensions = true
      · have hb := hbound F (List.mem_cons_self _ _) hfr hc
        have hr : (rest.filter fun b =>
            condTop F b.position b.dimensions).length ≤ 1 :=
          le_trans filter_cons_length_le hb
        have h1pb : ((List.filter (fun b => condTop F b.position b.dimensions)
            [pb])).length ≤ 1 := by
          simpa using List.length_filter_le _ [pb]
        omega
      · rw [List.filter_singleton]
        simp only [Bool.not_eq_true] at hc
        rw [hc]
        simpa using h1 hfr
    · intro F0 hF0 hfr0 hc0
      have hb := hbound F0 (List.mem_cons_of_mem _ hF0) hfr0 hc0
      exact le_trans filter_cons_length_le hb

lemma fragOK_index {L : List PackedBox} (h : FragOK L) :
    ∀ i F, L[i]? = some F → F.boxType.isFragile = true →
      ((L.drop (i + 1)).filter fun b =>
        condTop F b.position b.dimensions).length ≤ 2 := by
  induction L with
  | nil => intro i F hF; simp at hF
  | cons G rest ih =>
    intro i F hF hfr
    cases i with
    | zero =>
      simp only [List.getElem?_cons_zero, Option.some.injEq] at hF
      subst hF
      simpa using h.1 hfr
    | succ n =>
      simp only [List.getElem?_cons_succ] at hF
      simpa using ih h.2 n F hF hfr

lemma placeUnit_fragOK {st : PackState} {u : BoxToPlace}
    (h : FragOK st.packedBoxes) : FragOK (placeUnit st u).packedBoxes := by
  unfold placeUnit
  cases hscan : scanSpaces st.packedBoxes u.boxType st.spaces with
  | none => exact h
  | some val =>
    obtain ⟨ns, sp, r⟩ := val
    obtain ⟨pre, suf, hss, hns, hrot, hfits, hfrag⟩ := scanSpaces_spec hscan
    exact fragOK_append h fun F hF hfr hc => checkFrag_bound hfrag hF hfr hc

lemma foldl_fragOK :
    ∀ (l : List BoxToPlace) (st : PackState), FragOK st.packedBoxes →
      FragOK ((l.foldl placeUnit st).packedBoxes) := by
  intro l
  induction l with
  | nil => intro st h; exact h
  | cons u rest ih =>
    intro st h
    exact ih (placeUnit st u) (placeUnit_fragOK h)

/-! ## Unit-accounting lemmas -/

lemma placeUnit_count (st : PackState) (u : BoxToPlace) :
    (placeUnit st u).packedBoxes.length +
      sumVals (placeUnit st u).unpackedCounts =
    st.packedBoxes.length + sumVals st.unpackedCounts + 1 := by
  unfold placeUnit
  cases hscan : scanSpaces st.packedBoxes u.boxType st.spaces with
  | none => simp [sumVals_mapSet]; omega
  | some val =>
    obtain ⟨ns, sp, r⟩ := val
    simp
    omega

lemma placeUnit_keys {bts : List BoxType} {st : PackState} {u : BoxToPlace}
    (hkeys : ∀ kv ∈ st.unpackedCounts, ∃ bt ∈ bts, bt.id = kv.1)
    (hu : u.boxType ∈ bts) :
    ∀ kv ∈ (placeUnit st u).unpackedCounts, ∃ bt ∈ bts, bt.id = kv.1 := by
  unfold placeUnit
  cases hscan : scanSpaces st.packedBoxes u.boxType st.spaces with
  | none =>
    intro kv hkv
    rcases mapSet_keys hkv with h1 | h1
    · exact ⟨u.boxType, hu, h1.symm⟩
    · exact hkeys kv h1
  | some val =>
    obtain ⟨ns, sp, r⟩ := val
    intro kv hkv
    exact hkeys kv hkv

lemma foldl_count :
    ∀ (l : List BoxToPlace) (st : PackState),
      (l.foldl placeUnit st).packedBoxes.length +
        sumVals (l.foldl placeUnit st).unpackedCounts =
      st.packedBoxes.length + sumVals st.unpackedCounts + l.length := by
  intro l
  induction l with
  | nil => intro st; rfl
  | cons u rest ih =>
    intro st
    rw [List.foldl_cons, ih (placeUnit st u), placeUnit_count]
    simp
    omega

lemma foldl_keys (bts : List BoxType) :
    ∀ (l : List BoxToPlace) (st : PackState),
      (∀ u ∈ l, u.boxType ∈ bts) →
      (∀ kv ∈ st.unpackedCounts, ∃ bt ∈ bts, bt.id = kv.1) →
      ∀ kv ∈ (l.foldl placeUnit st).unpackedCounts, ∃ bt ∈ bts, bt.id = kv.1 := by
  intro l
  induction l with
  | nil => intro st _ hkeys; exact hkeys
  | cons u rest ih =>
    intro st hl hkeys
    exact ih (placeUnit st u) (fun v hv => hl v (List.mem_cons_of_mem _ hv))
      (placeUnit_keys hkeys (hl u (List.mem_cons_self _ _)))

lemma unpacked_sum (bts : List BoxType) :
    ∀ (m : List (String × Nat)),
      (∀ kv ∈ m, ∃ bt ∈ bts, bt.id = kv.1) →
      ((m.filterMap fun kv =>
          (bts.find? fun b => b.id == kv.1).map fun bt =>
            { bt with quantity := kv.2 }).map fun bt => bt.quantity).sum =
        sumVals m := by
  intro m
  induction m with
  | nil => intro _; rfl
  | cons kv rest ih =>
    intro h
    obtain ⟨bt0, hbt0, hid⟩ := h kv (List.mem_cons_self _ _)
    have hsome : (bts.find? fun b => b.id == kv.1).isSome := by
      rw [List.find?_isSome]
      exact ⟨bt0, hbt0, by simp [hid]⟩
    cases hfind : bts.find? fun b => b.id == kv.1 with
    | none => rw [hfind] at hsome; simp at hsome
    | some bt1 =>
      rw [List.filterMap_cons, hfind]
      simp only [Option.map_some']
      rw [List.map_cons, List.sum_cons,
        ih fun v hv => h v (List.mem_cons_of_mem _ hv)]
      rfl

/-! ## Geometry of the guillotine split -/

lemma boxRegion_sub_space {s : Space} {bl bw bh : ℚ} (hl : bl ≤ s.length)
    (hw : bw ≤ s.width) (hh : bh ≤ s.height) :
    ∀ p, inRegion s.x s.y s.z bl bw bh p → s.region p := by
  intro p hp
  obtain ⟨⟨a1, a2⟩, ⟨b1, b2⟩, ⟨c1, c2⟩⟩ := hp
  exact ⟨⟨a1, by linarith⟩, ⟨b1, by linarith⟩, ⟨c1, by linarith⟩⟩

lemma ite_sing_sublist (c : Prop) [Decidable c] (a : α) :
    List.Sublist (if c then [a] else []) [a] := by
  split
  · exact List.Sublist.refl _
  · exact List.nil_sublist _

lemma split_sublist {s : Space} {bl bw bh : ℚ} :
    List.Sublist (splitSpace s bl bw bh)
      [rightSpace s bl, frontSpace s bl bw, aboveSpace s bl bw bh] := by
  have h1 := ite_sing_sublist (0 < s.length - bl) (rightSpace s bl)
  have h2 := ite_sing_sublist (0 < s.width - bw) (frontSpace s bl bw)
  have h3 := ite_sing_sublist (0 < s.height - bh) (aboveSpace s bl bw bh)
  unfold splitSpace
  rw [List.append_assoc]
  exact h1.append (h2.append h3)

lemma mem_split_cases {s s' : Space} {bl bw bh : ℚ}
    (h : s' ∈ splitSpace s bl bw bh) :
    s' = rightSpace s bl ∨ s' = frontSpace s bl bw ∨
      s' = aboveSpace s bl bw bh := by
  have := split_sublist.subset h
  simpa using this

lemma right_mem_split {s : Space} {bl bw bh : ℚ} (h : 0 < s.length - bl) :
    rightSpace s bl ∈ splitSpace s bl bw bh := by
  unfold splitSpace
  rw [if_pos h]
  simp

lemma front_mem_split {s : Space} {bl bw bh : ℚ} (h : 0 < s.width - bw) :
    frontSpace s bl bw ∈ splitSpace s bl bw bh := by
  unfold splitSpace
  rw [if_pos h]
  simp

lemma above_mem_split {s : Space} {bl bw bh : ℚ} (h : 0 < s.height - bh) :
    aboveSpace s bl bw bh ∈ splitSpace s bl bw bh := by
  unfold splitSpace
  rw [if_pos h]
  simp

lemma split_sub {s s' : Space} {bl bw bh : ℚ}
    (h : s' ∈ splitSpace s bl bw bh)
    (h0l : 0 ≤ bl) (h0w : 0 ≤ bw) (h0h : 0 ≤ bh)
    (hl : bl ≤ s.length) (hw : bw ≤ s.width) (hh : bh ≤ s.height) :
    ∀ p, s'.region p → s.region p := by
  rcases mem_split_cases h with h0 | h0 | h0 <;> subst h0 <;>
    intro p hp <;>
    obtain ⟨⟨a1, a2⟩, ⟨b1, b2⟩, ⟨c1, c2⟩⟩ := hp <;>
    refine ⟨⟨?_, ?_⟩, ⟨?_, ?_⟩, ⟨?_, ?_⟩⟩ <;>
    simp only [rightSpace, frontSpace, aboveSpace] at * <;> linarith

lemma split_disj_box {s s' : Space} {bl bw bh : ℚ}
    (h : s' ∈ splitSpace s bl bw bh) :
    ∀ p, s'.region p → inRegion s.x s.y s.z bl bw bh p → False := by
  rcases mem_split_cases h with h0 | h0 | h0 <;> subst h0 <;>
    intro p hp hq <;>
    obtain ⟨⟨a1, a2⟩, ⟨b1, b2⟩, ⟨c1, c2⟩⟩ := hp <;>
    obtain ⟨⟨d1, d2⟩, ⟨e1, e2⟩, ⟨f1, f2⟩⟩ := hq <;>
    simp only [rightSpace, frontSpace, aboveSpace] at * <;> linarith

lemma disjRF {s : Space} {bl bw : ℚ} :
    regionDisjoint (rightSpace s bl).region (frontSpace s bl bw).region := by
  intro p hp hq
  obtain ⟨⟨a1, a2⟩, _, _⟩ := hp
  obtain ⟨⟨d1, d2⟩, _, _⟩ := hq
  simp only [rightSpace, frontSpace] at *
  linarith

lemma disjRA {s : Space} {bl bw bh : ℚ} :
    regionDisjoint (rightSpace s bl).region
      (aboveSpace s bl bw bh).region := by
  intro p hp hq
  obtain ⟨⟨a1, a2⟩, _, _⟩ := hp
  obtain ⟨⟨d1, d2⟩, _, _⟩ := hq
  simp only [rightSpace, aboveSpace] at *
  linarith

lemma disjFA {s : Space} {bl bw bh : ℚ} :
    regionDisjoint (frontSpace s bl bw).region
      (aboveSpace s bl bw bh).region := by
  intro p hp hq
  obtain ⟨_, _, ⟨c1, c2⟩⟩ := hp
  obtain ⟨_, _, ⟨f1, f2⟩⟩ := hq
  simp only [frontSpace, aboveSpace] at *
  linarith

lemma split_pairwise {s : Space} {bl bw bh : ℚ} :
    (splitSpace s bl bw bh).Pairwise fun a b =>
      regionDisjoint a.region b.region := by
  refine List.Pairwise.sublist split_sublist ?_
  refine List.pairwise_cons.2 ⟨?_, List.pairwise_cons.2 ⟨?_, ?_⟩⟩
  · intro b hb
    rcases List.mem_cons.1 hb with h0 | h0
    · subst h0; exact disjRF
    · simp only [List.mem_singleton] at h0
      subst h0; exact disjRA
  · intro b hb
    simp only [List.mem_singleton] at hb
    subst hb; exact disjFA
  · exact List.pairwise_singleton _ _

lemma split_bounds {c : Container} {s s' : Space} {bl bw bh : ℚ}
    (h : s' ∈ splitSpace s bl bw bh)
    (hs : withinContainer c s.x s.y s.z s.length s.width s.height)
    (h0l : 0 ≤ bl) (h0w : 0 ≤ bw) (h0h : 0 ≤ bh)
    (hl : bl ≤ s.length) (hw : bw ≤ s.width) (hh : bh ≤ s.height) :
    withinContainer c s'.x s'.y s'.z s'.length s'.width s'.height := by
  obtain ⟨w1, w2, w3, w4, w5, w6⟩ := hs
  rcases mem_split_cases h with h0 | h0 | h0 <;> subst h0 <;>
    refine ⟨?_, ?_, ?_, ?_, ?_, ?_⟩ <;>
    simp only [rightSpace, frontSpace, aboveSpace] <;> linarith

lemma box_bounds {c : Container} {s : Space} {bl bw bh : ℚ}
    (hs : withinContainer c s.x s.y s.z s.length s.width s.height)
    (hl : bl ≤ s.length) (hw : bw ≤ s.width) (hh : bh ≤ s.height) :
    withinContainer c s.x s.y s.z bl bw bh := by
  obtain ⟨w1, w2, w3, w4, w5, w6⟩ := hs
  exact ⟨w1, w2, w3, by linarith, by linarith, by linarith⟩

lemma split_tiling {s : Space} {bl bw bh : ℚ}
    (h0l : 0 ≤ bl) (h0w : 0 ≤ bw) (h0h : 0 ≤ bh)
    (hl : bl ≤ s.length) (hw : bw ≤ s.width) (hh : bh ≤ s.height) :
    ∀ p, s.region p ↔ (inRegion s.x s.y s.z bl bw bh p ∨
      ∃ s' ∈ splitSpace s bl bw bh, s'.region p) := by
  intro p
  constructor
  · intro hp
    obtain ⟨⟨a1, a2⟩, ⟨b1, b2⟩, ⟨c1, c2⟩⟩ := hp
    by_cases c1x : p.1 < s.x + bl
    · by_cases c2z : p.2.2 < s.z + bw
      · by_cases c3y : p.2.1 < s.y + bh
        · exact Or.inl ⟨⟨a1, c1x⟩, ⟨b1, c3y⟩, ⟨c1, c2z⟩⟩
        · push_neg at c3y
          refine Or.inr ⟨aboveSpace s bl bw bh,
            above_mem_split (by linarith), ?_⟩
          exact ⟨⟨a1, c1x⟩, ⟨c3y, by simp only [aboveSpace]; linarith⟩,
            ⟨c1, c2z⟩⟩
      · push_neg at c2z
        refine Or.inr ⟨frontSpace s bl bw,
          front_mem_split (by linarith), ?_⟩
        exact ⟨⟨a1, c1x⟩, ⟨b1, by simp only [frontSpace]; linarith⟩,
          ⟨c2z, by simp only [frontSpace]; linarith⟩⟩
    · push_neg at c1x
      refine Or.inr ⟨rightSpace s bl, right_mem_split (by linarith), ?_⟩
      exact ⟨⟨c1x, by simp only [rightSpace]; linarith⟩,
        ⟨b1, by simp only [rightSpace]; linarith⟩,
        ⟨c1, by simp only [rightSpace]; linarith⟩⟩
  · intro hp
    rcases hp with hp | ⟨s', hs', hp⟩
    · exact boxRegion_sub_space hl hw hh p hp
    · exact split_sub hs' h0l h0w h0h hl hw hh p hp

/-! ## The placement loop preserves the geometric invariant -/

lemma placeUnit_spacesOK {c : Container} {st : PackState} {u : BoxToPlace}
    (hOK : SpacesOK c st) (h1 : 0 ≤ u.boxType.length)
    (h2 : 0 ≤ u.boxType.width) (h3 : 0 ≤ u.boxType.height) :
    SpacesOK c (placeUnit st u) := by
  unfold placeUnit
  cases hscan : scanSpaces st.packedBoxes u.boxType st.spaces with
  | none => exact ⟨hOK.sBounds, hOK.bBounds, hOK.sDisj, hOK.bDisj, hOK.sbDisj⟩
  | some val =>
    obtain ⟨ns, sp, r⟩ := val
    obtain ⟨pre, suf, hss, hns, hrot, hfits, hfrag⟩ := scanSpaces_spec hscan
    rw [boxFits_iff] at hfits
    obtain ⟨hfl, hfw, hfh⟩ := hfits
    obtain ⟨h0l, h0w, h0h⟩ := rot_nonneg hrot h1 h2 h3
    have hsp_mem : sp ∈ st.spaces := by
      rw [hss]; exact List.mem_append_right _ (List.mem_cons_self _ _)
    have hspB := hOK.sBounds sp hsp_mem
    have hsD := hOK.sDisj
    rw [hss, List.pairwise_append] at hsD
    obtain ⟨hpwPre, hpwCons, hcrossPre⟩ := hsD
    rw [List.pairwise_cons] at hpwCons
    obtain ⟨hspSuf, hpwSuf⟩ := hpwCons
    have hsb := hOK.sbDisj
    have hsb_sp : ∀ b ∈ st.packedBoxes,
        regionDisjoint sp.region b.region := hsb sp hsp_mem
    have hpb_sub : ∀ p, inRegion sp.x sp.y sp.z r.1 r.2.1 r.2.2 p →
        sp.region p := boxRegion_sub_space hfl hfw hfh
    have hsplit_sub : ∀ s' ∈ splitSpace sp r.1 r.2.1 r.2.2,
        ∀ p, s'.region p → sp.region p :=
      fun s' h' => split_sub h' h0l h0w h0h hfl hfw hfh
    have hmem_ns : ∀ s' ∈ ns,
        s' ∈ pre ∨ s' ∈ splitSpace sp r.1 r.2.1 r.2.2 ∨ s' ∈ suf := by
      intro s' h'
      rw [hns] at h'
      simpa [List.mem_append, or_assoc] using h'
    refine ⟨?_, ?_, ?_, ?_, ?_⟩
    · -- new spaces lie in the container
      intro s hmem
      have hs_ns : s ∈ ns :=
        mem_stableSort.1 (List.mem_of_mem_filter hmem)
      rcases hmem_ns s hs_ns with h' | h' | h'
      · exact hOK.sBounds s (by rw [hss]; exact List.mem_append_left _ h')
      · exact split_bounds h' hspB h0l h0w h0h hfl hfw hfh
      · exact hOK.sBounds s
          (by rw [hss]
              exact List.mem_append_right _ (List.mem_cons_of_mem _ h'))
    · -- boxes lie in the container
      intro b hmem
      rcases List.mem_append.1 hmem with h' | h'
      · exact hOK.bBounds b h'
      · rw [List.mem_singleton] at h'
        subst h'
        exact box_bounds hspB hfl hfw hfh
    · -- new spaces pairwise disjoint
      refine List.Pairwise.sublist (List.filter_sublist _) ?_
      refine ((stableSort_perm spaceLE ns).pairwise_iff
        (fun h p hb ha => h p ha hb)).2 ?_
      rw [hns, List.pairwise_append]
      refine ⟨hpwPre, ?_, ?_⟩
      · rw [List.pairwise_append]
        refine ⟨split_pairwise, hpwSuf, ?_⟩
        intro a ha b hb p hpa hpb
        exact hspSuf b hb p (hsplit_sub a ha p hpa) hpb
      · intro a ha b hb
        rcases List.mem_append.1 hb with hb' | hb'
        · intro p hpa hpb
          exact hcrossPre a ha sp (List.mem_cons_self _ _) p hpa
            (hsplit_sub b hb' p hpb)
        · exact hcrossPre a ha b (List.mem_cons_of_mem _ hb')
    · -- boxes pairwise disjoint
      rw [List.pairwise_append]
      refine ⟨hOK.bDisj, List.pairwise_singleton _ _, ?_⟩
      intro a ha b hb
      rw [List.mem_singleton] at hb
      subst hb
      intro p hpa hpb
      exact hsb_sp a ha p (hpb_sub p hpb) hpa
    · -- spaces disjoint from boxes
      intro s hmem b hb
      have hs_ns : s ∈ ns :=
        mem_stableSort.1 (List.mem_of_mem_filter hmem)
      rcases List.mem_append.1 hb with hb' | hb'
      · rcases hmem_ns s hs_ns with h' | h' | h'
        · exact hsb s (by rw [hss]; exact List.mem_append_left _ h') b hb'
        · intro p hps hpb
          exact hsb_sp b hb' p (hsplit_sub s h' p hps) hpb
        · exact hsb s
            (by rw [hss]
                exact List.mem_append_right _ (List.mem_cons_of_mem _ h'))
            b hb'
      · rw [List.mem_singleton] at hb'
        subst hb'
        rcases hmem_ns s hs_ns with h' | h' | h'
        · intro p hps hpb
          exact hcrossPre s h' sp (List.mem_cons_self _ _) p hps
            (hpb_sub p hpb)
        · intro p hps hpb
          exact split_disj_box h' p hps hpb
        · intro p hps hpb
          exact hspSuf s h' p (hpb_sub p hpb) hps

lemma init_spacesOK (c : Container) :
    SpacesOK c ⟨[initialSpace c], [], []⟩ := by
  refine ⟨?_, ?_, ?_, ?_, ?_⟩
  · intro s hs
    rw [List.mem_singleton] at hs
    subst hs
    exact ⟨le_refl 0, le_refl 0, le_refl 0, by simp [initialSpace],
      by simp [initialSpace], by simp [initialSpace]⟩
  · intro b hb; simp at hb
  · exact List.pairwise_singleton _ _
  · exact List.Pairwise.nil
  · intro s _ b hb; simp at hb

lemma foldl_spacesOK {c : Container} :
    ∀ (l : List BoxToPlace) (st : PackState),
      (∀ u ∈ l, 0 ≤ u.boxType.length ∧ 0 ≤ u.boxType.width ∧
        0 ≤ u.boxType.height) →
      SpacesOK c st → SpacesOK c (l.foldl placeUnit st) := by
  intro l
  induction l with
  | nil => intro st _ h; exact h
  | cons u rest ih =>
    intro st hl h
    obtain ⟨hu1, hu2, hu3⟩ := hl u (List.mem_cons_self _ _)
    exact ih (placeUnit st u)
      (fun v hv => hl v (List.mem_cons_of_mem _ hv))
      (placeUnit_spacesOK h hu1 hu2 hu3)

lemma valid_units {c : Container} {bts : List BoxType}
    (hv : validInput c bts) :
    ∀ u ∈ sortedUnits bts, 0 ≤ u.boxType.length ∧ 0 ≤ u.boxType.width ∧
      0 ≤ u.boxType.height := by
  intro u hu
  obtain ⟨hL, hW, hH⟩ := hv.2 u.boxType (sortedUnits_boxType hu)
  exact ⟨le_of_lt hL, le_of_lt hW, le_of_lt hH⟩

lemma packedState_spacesOK {c : Container} {bts : List BoxType}
    (hv : validInput c bts) : SpacesOK c (packedState c bts) :=
  foldl_spacesOK _ _ (valid_units hv) (init_spacesOK c)

lemma partialState_spacesOK {c : Container} {bts : List BoxType}
    (hv : validInput c bts) (n : Nat) : SpacesOK c (partialState c bts n) :=
  foldl_spacesOK _ _
    (fun u hu => valid_units hv u (List.mem_of_mem_take hu))
    (init_spacesOK c)

/-! ## Rotations are permutations of the spec dimensions -/

lemma rot_perm {bt : BoxType} {r : ℚ × ℚ × ℚ} (h : r ∈ getRotations bt) :
    List.Perm [r.1, r.2.1, r.2.2] [bt.length, bt.width, bt.height] := by
  rcases getRotations_cases h with h0 | h0 | h0 | h0 | h0 | h0 <;> subst h0
  · exact List.Perm.refl _
  · exact .cons _ (.swap _ _ _)
  · exact .swap _ _ _
  · exact (List.Perm.cons _ (.swap _ _ _)).trans (.swap _ _ _)
  · exact (List.Perm.swap _ _ _).trans (.cons _ (.swap _ _ _))
  · exact ((List.Perm.swap _ _ _).trans
      (.cons _ (.swap _ _ _))).trans (.swap _ _ _)

lemma rot_volume {bt : BoxType} {r : ℚ × ℚ × ℚ} (h : r ∈ getRotations bt) :
    r.1 * r.2.1 * r.2.2 = bt.length * bt.width * bt.height := by
  rcases getRotations_cases h with h0 | h0 | h0 | h0 | h0 | h0 <;>
    subst h0 <;> ring

lemma rot_fragile_height {bt : BoxType} {r : ℚ × ℚ × ℚ}
    (hf : bt.isFragile = true) (h : r ∈ getRotations bt) :
    r.2.2 = bt.height := by
  rcases getRotations_fragile hf h with h0 | h0 <;> subst h0 <;> rfl

lemma placeUnit_rotmem {st : PackState} {u : BoxToPlace}
    (h : ∀ pb ∈ st.packedBoxes,
      (pb.dimensions.length, pb.dimensions.width, pb.dimensions.height) ∈
        getRotations pb.boxType) :
    ∀ pb ∈ (placeUnit st u).packedBoxes,
      (pb.dimensions.length, pb.dimensions.width, pb.dimensions.height) ∈
        getRotations pb.boxType := by
  unfold placeUnit
  cases hscan : scanSpaces st.packedBoxes u.boxType st.spaces with
  | none => exact h
  | some val =>
    obtain ⟨ns, sp, r⟩ := val
    obtain ⟨pre, suf, hss, hns, hrot, hfits, hfrag⟩ := scanSpaces_spec hscan
    intro pb hpb
    rcases List.mem_append.1 hpb with h' | h'
    · exact h pb h'
    · rw [List.mem_singleton] at h'
      subst h'
      exact hrot

lemma foldl_rotmem :
    ∀ (l : List BoxToPlace) (st : PackState),
      (∀ pb ∈ st.packedBoxes,
        (pb.dimensions.length, pb.dimensions.width, pb.dimensions.height) ∈
          getRotations pb.boxType) →
      ∀ pb ∈ (l.foldl placeUnit st).packedBoxes,
        (pb.dimensions.length, pb.dimensions.width, pb.dimensions.height) ∈
          getRotations pb.boxType := by
  intro l
  induction l with
  | nil => intro st h; exact h
  | cons u rest ih =>
    intro st h
    exact ih (placeUnit st u) (placeUnit_rotmem h)

/-! ## Definitional projections of `packBoxes` -/

lemma packBoxes_boxes (c : Container) (bts : List BoxType) :
    (packBoxes c bts).boxes = (packedState c bts).packedBoxes := rfl

lemma packBoxes_total (c : Container) (bts : List BoxType) :
    (packBoxes c bts).stats.totalBoxes = ((sortedUnits bts).length : ℤ) := rfl

lemma packBoxes_packed (c : Container) (bts : List BoxType) :
    (packBoxes c bts).stats.packedBoxes =
      ((packedState c bts).packedBoxes.length : ℤ) := rfl

lemma packBoxes_unpackedStat (c : Container) (bts : List BoxType) :
    (packBoxes c bts).stats.unpackedBoxes =
      ((sortedUnits bts).length : ℤ) -
        ((packedState c bts).packedBoxes.length : ℤ) := rfl

lemma packBoxes_unpacked (c : Container) (bts : List BoxType) :
    (packBoxes c bts).unpacked =
      (packedState c bts).unpackedCounts.filterMap fun kv =>
        (bts.find? fun b => b.id == kv.1).map fun bt =>
          { bt with quantity := kv.2 } := rfl

/-! ## Claims -/

/-- C1: for every valid input (positive container and box dimensions,
nonnegative integer quantities), no two placed boxes in the output of
`packBoxes` have occupied regions that overlap in volume: the output list is
pairwise region-disjoint. -/
theorem packBoxes_no_overlap :
    ∀ (c : Container) (bts : List BoxType), validInput c bts →
      (packBoxes c bts).boxes.Pairwise fun a b =>
        regionDisjoint a.region b.region := by
  intro c bts hv
  rw [packBoxes_boxes]
  exact (packedState_spacesOK hv).bDisj

/-- Witness for C1: a concrete valid input with two placed boxes. -/
theorem packBoxes_no_overlap_witness :
    validInput containerA [boxSpecA2] ∧
      (packBoxes containerA [boxSpecA2]).boxes.Pairwise fun a b =>
        regionDisjoint a.region b.region := by
  have hv : validInput containerA [boxSpecA2] := by
    unfold validInput containerA boxSpecA2
    norm_num
  exact ⟨hv, packBoxes_no_overlap containerA [boxSpecA2] hv⟩

/-- C2: every requested unit is accounted for exactly once:
`packedBoxes + unpackedBoxes = totalBoxes`, `totalBoxes` is the sum of the
requested quantities, `packedBoxes` is the length of the placed list, and
the unpacked records' quantities sum to `unpackedBoxes`. -/
theorem packBoxes_conservation :
    ∀ (c : Container) (bts : List BoxType),
      (packBoxes c bts).stats.packedBoxes +
          (packBoxes c bts).stats.unpackedBoxes =
        (packBoxes c bts).stats.totalBoxes ∧
      (packBoxes c bts).stats.totalBoxes =
        ((((bts.map fun bt => bt.quantity).sum : Nat)) : ℤ) ∧
      (packBoxes c bts).stats.packedBoxes =
        ((packBoxes c bts).boxes.length : ℤ) ∧
      (((((packBoxes c bts).unpacked.map fun bt =>
          bt.quantity).sum : Nat)) : ℤ) =
        (packBoxes c bts).stats.unpackedBoxes := by
  intro c bts
  have hcount : ((sortedUnits bts).foldl placeUnit
        ⟨[initialSpace c], [], []⟩).packedBoxes.length +
      sumVals ((sortedUnits bts).foldl placeUnit
        ⟨[initialSpace c], [], []⟩).unpackedCounts =
      (sortedUnits bts).length := by
    simpa [sumVals] using foldl_count (sortedUnits bts)
      ⟨[initialSpace c], [], []⟩
  have hkeys := foldl_keys bts (sortedUnits bts)
    ⟨[initialSpace c], [], []⟩
    (fun u hu => sortedUnits_boxType hu)
    (by intro kv hkv; simp at hkv)
  have hsum := unpacked_sum bts _ hkeys
  have hps : packedState c bts =
      (sortedUnits bts).foldl placeUnit ⟨[initialSpace c], [], []⟩ := rfl
  refine ⟨?_, ?_, ?_, ?_⟩
  · rw [packBoxes_packed, packBoxes_unpackedStat, packBoxes_total]
    ring
  · rw [packBoxes_total, sortedUnits_length]
  · rw [packBoxes_packed, packBoxes_boxes]
  · rw [packBoxes_unpacked, packBoxes_unpackedStat, hps, hsum]
    omega

/-- C3: for every valid input, every placed box's occupied region lies within
the container: nonnegative minimum corner, and `x + L ≤ container.length`,
`y + H ≤ container.height`, `z + W ≤ container.width`. -/
theorem packBoxes_within_container :
    ∀ (c : Container) (bts : List BoxType) (pb : PackedBox),
      validInput c bts → pb ∈ (packBoxes c bts).boxes →
      withinContainer c pb.position.x pb.position.y pb.position.z
        pb.dimensions.length pb.dimensions.width pb.dimensions.height := by
  intro c bts pb hv hpb
  rw [packBoxes_boxes] at hpb
  exact (packedState_spacesOK hv).bBounds pb hpb

/-- Witness for C3: the Scenario A box is placed and lies in the container. -/
theorem packBoxes_within_container_witness :
    validInput containerA [boxSpecA] ∧
      placedA ∈ (packBoxes containerA [boxSpecA]).boxes ∧
      withinContainer containerA placedA.position.x placedA.position.y
        placedA.position.z placedA.dimensions.length
        placedA.dimensions.width placedA.dimensions.height := by
  have hv : validInput containerA [boxSpecA] := by
    unfold validInput containerA boxSpecA
    norm_num
  have hmem : placedA ∈ (packBoxes containerA [boxSpecA]).boxes := by
    with_unfolding_all decide
  exact ⟨hv, hmem, packBoxes_within_container containerA [boxSpecA]
    placedA hv hmem⟩

/-- C4 (amended): for every input and every fragile placed box `F`, at most
2 of the boxes placed AFTER `F` have their bottom face within 0.1 of `F`'s
top face and an overlapping x/z footprint.  (The original claim, counting
all placed boxes, fails: boxes placed before `F` — e.g. very flat boxes `F`
is stacked onto — can also satisfy the 0.1-tolerance condition, and the
check never looks at them; see the counterexample.) -/
theorem fragility_bound_after :
    ∀ (c : Container) (bts : List BoxType) (i : Nat) (F : PackedBox),
      (packBoxes c bts).boxes[i]? = some F →
      F.boxType.isFragile = true →
      (((packBoxes c bts).boxes.drop (i + 1)).filter fun b =>
        condTop F b.position b.dimensions).length ≤ 2 := by
  intro c bts i F hF hfr
  rw [packBoxes_boxes] at hF ⊢
  have hOK := foldl_fragOK (sortedUnits bts)
    ⟨[initialSpace c], [], []⟩ trivial
  exact fragOK_index hOK i F hF hfr

/-- Witness for the amended C4: the fragile box of the counterexample input
sits at index 3; no box is placed after it, so the bound holds. -/
theorem fragility_bound_after_witness :
    (packBoxes fragCexC fragCexB).boxes[3]? = some fragCexF ∧
      fragCexF.boxType.isFragile = true ∧
      (((packBoxes fragCexC fragCexB).boxes.drop 4).filter fun b =>
        condTop fragCexF b.position b.dimensions).length ≤ 2 := by
  have h1 : (packBoxes fragCexC fragCexB).boxes[3]? = some fragCexF := by
    with_unfolding_all rfl
  exact ⟨h1, rfl, fragility_bound_after fragCexC fragCexB 3 fragCexF h1 rfl⟩

/-- Counterexample to C4 as stated: a valid input (three thin 5 x 5 x 0.02
tiles below a fragile 4 x 4 x 0.02 box) on which the fragile placed box has
FOUR placed boxes (the three tiles, whose bottoms at y = 0, 0.02, 0.04 are
all within 0.1 of its top face y = 0.08, plus the box itself) satisfying the
claim's counting condition — more than the claimed bound of 2. -/
theorem fragility_bound_counterexample :
    validInput fragCexC fragCexB ∧
      ¬ (∀ F ∈ (packBoxes fragCexC fragCexB).boxes,
          F.boxType.isFragile = true →
          ((packBoxes fragCexC fragCexB).boxes.filter fun b =>
            condTop F b.position b.dimensions).length ≤ 2) := by
  constructor
  · unfold validInput fragCexC fragCexB
    norm_num
  · intro h
    have hmem : fragCexF ∈ (packBoxes fragCexC fragCexB).boxes := by
      with_unfolding_all decide
    have hcount : ((packBoxes fragCexC fragCexB).boxes.filter fun b =>
        condTop fragCexF b.position b.dimensions).length = 4 := by
      with_unfolding_all rfl
    have := h fragCexF hmem rfl
    omega

/-- C5: the orientation candidates for a box with dimensions `(l, w, h)` are,
in order: for a fragile spec exactly the 2 permutations keeping `h` on the
vertical axis, `[l,w,h]` and `[w,l,h]`; for a non-fragile spec all 6
permutations `[l,w,h], [l,h,w], [w,l,h], [w,h,l], [h,l,w], [h,w,l]`. -/
theorem getRotations_enumeration :
    ∀ bt : BoxType,
      getRotations bt =
        if bt.isFragile then
          [(bt.length, bt.width, bt.height),
           (bt.width, bt.length, bt.height)]
        else
          [(bt.length, bt.width, bt.height),
           (bt.length, bt.height, bt.width),
           (bt.width, bt.length, bt.height),
           (bt.width, bt.height, bt.length),
           (bt.height, bt.length, bt.width),
           (bt.height, bt.width, bt.length)] :=
  fun _ => rfl

/-- C6: splitting a space `S` by a box of extents `(bl, bw, bh)` placed at
`S`'s origin produces exactly the right-of-box, front-of-box and above-box
residuals with the stated origins and extents, each included iff its
remaining extent is strictly positive, and nothing else. -/
theorem splitSpace_residuals :
    ∀ (s : Space) (bl bw bh : ℚ),
      splitSpace s bl bw bh =
        (if 0 < s.length - bl then
          [Space.mk (s.x + bl) s.y s.z (s.length - bl) s.width s.height]
        else []) ++
        (if 0 < s.width - bw then
          [Space.mk s.x s.y (s.z + bw) bl (s.width - bw) s.height]
        else []) ++
        (if 0 < s.height - bh then
          [Space.mk s.x (s.y + bh) s.z bl bw (s.height - bh)]
        else []) :=
  fun _ _ _ _ => rfl

/-- C7: Scenario A — container (100,100,100), one non-fragile 50 x 50 x 50
box: exactly 1 packed box, 0 unpacked, utilization 12.5 percent. -/
theorem packBoxes_scenarioA :
    (packBoxes containerA [boxSpecA]).stats.packedBoxes = 1 ∧
    (packBoxes containerA [boxSpecA]).stats.unpackedBoxes = 0 ∧
    (packBoxes containerA [boxSpecA]).boxes.length = 1 ∧
    (packBoxes containerA [boxSpecA]).unpacked = [] ∧
    (packBoxes containerA [boxSpecA]).stats.utilizationPercent =
      (12.5 : ℚ) := by
  refine ⟨rfl, rfl, rfl, rfl, ?_⟩
  with_unfolding_all rfl

/-- C8: `packBoxes` is deterministic — identical inputs give identical
results — and total: every input produces a result.  (The embedding is a
pure total function, mirroring the source, which consults no randomness,
clock or global state and cannot throw for well-formed input.) -/
theorem packBoxes_deterministic :
    ∀ (c c' : Container) (bts bts' : List BoxType),
      c = c' → bts = bts' →
      packBoxes c bts = packBoxes c' bts' ∧
        ∃ r : PackingResult, packBoxes c bts = r := by
  intro c c' bts bts' hc hb
  subst hc
  subst hb
  exact ⟨rfl, ⟨packBoxes c bts, rfl⟩⟩

/-- Witness for C8 at Scenario A's input. -/
theorem packBoxes_deterministic_witness :
    packBoxes containerA [boxSpecA] = packBoxes containerA [boxSpecA] ∧
      ∃ r : PackingResult, packBoxes containerA [boxSpecA] = r :=
  packBoxes_deterministic containerA containerA [boxSpecA] [boxSpecA]
    rfl rfl

/-- C10: every placed box's effective dimensions are a permutation of its
originating spec's dimensions; hence its effective volume equals the
unrotated spec's volume, and a fragile spec keeps its original height. -/
theorem packBoxes_dims_perm :
    ∀ (c : Container) (bts : List BoxType) (pb : PackedBox),
      pb ∈ (packBoxes c bts).boxes →
      List.Perm
        [pb.dimensions.length, pb.dimensions.width, pb.dimensions.height]
        [pb.boxType.length, pb.boxType.width, pb.boxType.height] ∧
      pb.dimensions.length * pb.dimensions.width * pb.dimensions.height =
        pb.boxType.length * pb.boxType.width * pb.boxType.height ∧
      (pb.boxType.isFragile = true →
        pb.dimensions.height = pb.boxType.height) := by
  intro c bts pb hpb
  rw [packBoxes_boxes] at hpb
  have hrot := foldl_rotmem (sortedUnits bts)
    ⟨[initialSpace c], [], []⟩ (by intro pb0 h0; simp at h0) pb hpb
  exact ⟨rot_perm hrot, rot_volume hrot,
    fun hf => rot_fragile_height hf hrot⟩

/-- Witness for C10: the single fragile box of a concrete input. -/
theorem packBoxes_dims_perm_witness :
    placedW10 ∈ (packBoxes containerW10 [boxSpecW10]).boxes ∧
      (List.Perm
        [placedW10.dimensions.length, placedW10.dimensions.width,
          placedW10.dimensions.height]
        [placedW10.boxType.length, placedW10.boxType.width,
          placedW10.boxType.height] ∧
      placedW10.dimensions.length * placedW10.dimensions.width *
          placedW10.dimensions.height =
        placedW10.boxType.length * placedW10.boxType.width *
          placedW10.boxType.height ∧
      (placedW10.boxType.isFragile = true →
        placedW10.dimensions.height = placedW10.boxType.height)) := by
  have hmem : placedW10 ∈ (packBoxes containerW10 [boxSpecW10]).boxes := by
    with_unfolding_all decide
  exact ⟨hmem, packBoxes_dims_perm containerW10 [boxSpecW10] placedW10 hmem⟩

/-- C9: (a) the guillotine split residuals of a consumed space are mutually
disjoint, disjoint from the placed box's region at the space's origin, and
together with that region exactly tile the consumed space; (b) throughout
one invocation (after any number `n` of processed units, i.e. including
after every placement with its sort and small-space filter) the free-space
list is pairwise disjoint, each space is disjoint from every placed box's
region, and each space is an axis-aligned sub-volume of the container. -/
theorem spaces_invariant :
    ∀ (c : Container) (bts : List BoxType) (s : Space) (bl bw bh : ℚ)
      (n : Nat),
      validInput c bts → 0 ≤ bl → 0 ≤ bw → 0 ≤ bh →
      bl ≤ s.length → bw ≤ s.width → bh ≤ s.height →
      ((∀ p, s.region p ↔ (inRegion s.x s.y s.z bl bw bh p ∨
          ∃ s' ∈ splitSpace s bl bw bh, s'.region p)) ∧
        (splitSpace s bl bw bh).Pairwise (fun a b =>
          regionDisjoint a.region b.region) ∧
        (∀ s' ∈ splitSpace s bl bw bh,
          regionDisjoint s'.region (inRegion s.x s.y s.z bl bw bh)) ∧
        (partialState c bts n).spaces.Pairwise (fun a b =>
          regionDisjoint a.region b.region) ∧
        (∀ sp ∈ (partialState c bts n).spaces,
          ∀ b ∈ (partialState c bts n).packedBoxes,
            regionDisjoint sp.region b.region) ∧
        (∀ sp ∈ (partialState c bts n).spaces,
          withinContainer c sp.x sp.y sp.z sp.length sp.width
            sp.height)) := by
  intro c bts s bl bw bh n hv h0l h0w h0h hl hw hh
  have inv := partialState_spacesOK hv n
  exact ⟨split_tiling h0l h0w h0h hl hw hh, split_pairwise,
    fun s' h' => split_disj_box h', inv.sDisj, inv.sbDisj, inv.sBounds⟩

/-- Witness for C9 at a concrete input, unit split and loop stage. -/
theorem spaces_invariant_witness :
    validInput containerA [boxSpecA2] ∧
      (partialState containerA [boxSpecA2] 1).spaces.Pairwise fun a b =>
        regionDisjoint a.region b.region := by
  have hv : validInput containerA [boxSpecA2] := by
    unfold validInput containerA boxSpecA2
    norm_num
  exact ⟨hv, (spaces_invariant containerA [boxSpecA2] ⟨0, 0, 0, 2, 2, 2⟩
    1 1 1 1 hv (by decide) (by decide) (by decide) (by decide)
    (by decide) (by decide)).2.2.2.1⟩
